import Mathlib

/-!
Verification of the diana_srv request-handling pipeline.

This file gives a shallow embedding of the core functions of the server
(`src/diana_srv/src/utils/readers.rs` and `src/diana_srv/src/backend/server.rs`)
and proves or refutes the specification claims about them.

Modelling conventions:
* Byte buffers (`Vec<u8>` / `&[u8]`) are `List Nat`; every value a real
  buffer holds is below 256, and theorems add that hypothesis only where
  it matters.
* `i64` arithmetic is modelled as `Int` with an explicit two's-complement
  wrap (`i64wrap`) at every source-level `i64` operation, matching the
  wrapping overflow semantics of an optimised build; `%` on `i64` is the
  sign-following Rust remainder (`rustRem`).
* `usize` arithmetic wraps modulo `2 ^ 64`.
* A panic (slice out of bounds, `unwrap` failure, `HashMap` index on a
  missing key) is modelled as `none` in an `Option`-valued result.
-/

set_option maxRecDepth 100000

namespace DianaSrv

/-- Sentinel returned by `find_in_buffer` when the pattern is absent:
`usize::MAX`. -/
def USIZE_MAX : Nat := 2 ^ 64 - 1

/-- ASCII newline, from `constants::NEWLINE`. -/
def NEWLINE : Nat := 10

/-- ASCII carriage return, from `constants::CR`. -/
def CR : Nat := 13

/-- ASCII space, from `constants::SPACE`. -/
def SPACE : Nat := 32

/-- The bytes of the string `Content-Length: `, from
`constants::CONTENT_LENGTH_FIELD`. -/
def CONTENT_LENGTH_FIELD : List Nat :=
  [67, 111, 110, 116, 101, 110, 116, 45, 76, 101, 110, 103, 116, 104, 58, 32]

/-- The bytes of `GET`, from `constants::GET_REQUEST`. -/
def GET_REQUEST : List Nat := [71, 69, 84]

/-- The bytes of `POST`, from `constants::POST_REQUEST`. -/
def POST_REQUEST : List Nat := [80, 79, 83, 84]

/-- The bytes of `site_not_found.html`, from `constants::SITE_NOT_FOUND`. -/
def SITE_NOT_FOUND : List Nat :=
  [115, 105, 116, 101, 95, 110, 111, 116, 95, 102, 111, 117, 110, 100, 46,
   104, 116, 109, 108]

/-- Two's-complement wrap of an `Int` into the `i64` range, the semantics of
an overflowing `i64` operation in an optimised Rust build. -/
def i64wrap (x : Int) : Int := (x + 2 ^ 63) % 2 ^ 64 - 2 ^ 63

/-- Rust's `%` on `i64`: remainder whose sign follows the dividend (the
divisor is positive everywhere it is used here). -/
def rustRem (a b : Int) : Int := if 0 ≤ a then a % b else -((-a) % b)

/-- Cast from `i64` to `usize` (`as usize`): wrap modulo `2 ^ 64`. -/
def usizeOfI64 (x : Int) : Nat := (x % 2 ^ 64).toNat

/-- The small prime `31` of `find_in_buffer`. -/
def rkPrime : Int := 31

/-- The modulus `1_000_000_009` of `find_in_buffer`. -/
def largePrime : Int := 1000000009

/-- Entry `i` of the `powers` vector of `find_in_buffer`: `powers[0] = 1`,
`powers[i] = powers[i-1] * 31 % 1_000_000_009`.  The source materialises
the vector up to `max(pattern_sz, buffer_sz)` and only reads entries below
that bound, so the unbounded function agrees with it at every read index. -/
def powAux : Nat → Int
  | 0 => 1
  | i + 1 => rustRem (i64wrap (powAux i * rkPrime)) largePrime

/-- Entry `i` of the `buffer_hash_prefixes` vector of `find_in_buffer`:
`pref[0] = 0`, `pref[i+1] = (pref[i] + buffer[i] * powers[i]) % 1_000_000_009`.
Out-of-range reads of the buffer never happen at the indices the source
uses; `getD` keeps the function total. -/
def prefHash (buffer : List Nat) : Nat → Int
  | 0 => 0
  | i + 1 =>
      rustRem (i64wrap (prefHash buffer i +
        i64wrap ((buffer.getD i 0 : Int) * powAux i))) largePrime

/-- The `hashed_pattern` accumulation of `find_in_buffer`:
`hp = hp + (pattern[idx] * powers[idx]) % large_prime` over all indices. -/
def hpLoop : List Nat → Nat → Int → Int
  | [], _, hp => hp
  | b :: rest, i, hp =>
      hpLoop rest (i + 1)
        (i64wrap (hp + rustRem (i64wrap ((b : Int) * powAux i)) largePrime))

/-- The full `hashed_pattern` value of `find_in_buffer`. -/
def hashedPattern (pattern : List Nat) : Int := hpLoop pattern 0 0

/-- The windowed hash the candidate loop of `find_in_buffer` computes at
index `idx`:
`(buffer_hash_prefixes[idx + m] + large_prime - buffer_hash_prefixes[idx]) % large_prime`. -/
def windowHash (buffer : List Nat) (idx m : Nat) : Int :=
  rustRem (i64wrap (i64wrap (prefHash buffer (idx + m) + largePrime) -
    prefHash buffer idx)) largePrime

/-- The comparison of the candidate loop of `find_in_buffer` at index `idx`:
`current_hash == hashed_pattern * powers[idx] % large_prime`. -/
def matchAt (buffer pattern : List Nat) (hp : Int) (idx : Nat) : Prop :=
  windowHash buffer idx pattern.length =
    rustRem (i64wrap (hp * powAux idx)) largePrime

instance (buffer pattern : List Nat) (hp : Int) (idx : Nat) :
    Decidable (matchAt buffer pattern hp idx) := by
  unfold matchAt; infer_instance

/-- The candidate loop of `find_in_buffer`: scan `fuel` consecutive indices
starting at `start`, returning the first hash match, and `usize::MAX` when
the loop falls through. -/
def findLoop (buffer pattern : List Nat) (hp : Int) : Nat → Nat → Nat
  | 0, _ => USIZE_MAX
  | fuel + 1, idx =>
      if matchAt buffer pattern hp idx then idx
      else findLoop buffer pattern hp fuel (idx + 1)

/-- Model of `find_in_buffer` (readers.rs, Rabin-Karp search).  The loop
bound `buffer_sz - pattern_sz + 1` is computed in `usize`: when the pattern
is longer than the buffer by one byte the bound wraps to zero and the loop
is empty, and when it is longer by two or more the wrapped bound is huge and
the first prefix-vector access is out of bounds, a panic (`none`). -/
def find_in_buffer (buffer pattern : List Nat) : Option Nat :=
  if pattern.length ≥ buffer.length + 2 then none
  else
    some (findLoop buffer pattern (hashedPattern pattern)
      (buffer.length + 1 - pattern.length) 0)

/-- The summation loop of `extract_number`: over the collected digit bytes in
reverse, `res = (x - 48) * magnitude; magnitude *= 10`, summed in `i64`. -/
def sumLoop : List Nat → Int → Int → Int
  | [], _, acc => acc
  | x :: rest, mag, acc =>
      sumLoop rest (i64wrap (mag * 10))
        (i64wrap (acc + i64wrap (((x : Int) - 48) * mag)))

/-- Model of `extract_number` (readers.rs): collect bytes until the first
carriage return or newline, then interpret them in base 10,
least-significant byte last, in `i64` arithmetic.  The function never
indexes out of bounds, so it is total. -/
def extract_number (buffer : List Nat) : Int :=
  sumLoop (buffer.takeWhile (fun b => b != CR && b != NEWLINE)).reverse 1 0

/-- The `RequestType` enumeration of server.rs. -/
inductive RequestType where
  | Get
  | Post
  | Invalid
  deriving DecidableEq, Repr

/-- Model of `Server::read_request_type` (server.rs).  The source slices
`buffer[0..3]` and `buffer[0..4]` without a length guard, so a buffer
shorter than 3 bytes (or a 3-byte buffer other than `GET`) panics. -/
def read_request_type (buffer : List Nat) : Option RequestType :=
  if buffer.length < 3 then none
  else if buffer.take 3 = GET_REQUEST then some RequestType.Get
  else if buffer.length < 4 then none
  else if buffer.take 4 = POST_REQUEST then some RequestType.Post
  else some RequestType.Invalid

/-- The byte-collecting loop of `Server::read_resource`: push bytes until a
space, returning the accumulator at the space and a fresh empty vector when
the input is exhausted without one. -/
def resourceLoop : List Nat → List Nat → List Nat
  | _, [] => []
  | acc, b :: rest => if b = SPACE then acc else resourceLoop (acc ++ [b]) rest

/-- Model of `Server::read_resource` (server.rs).  The skip offset is 3 for
`Get`, 4 for `Post` and `usize::MAX` for `Invalid`; the slice start
`request_offset + 1` wraps to 0 in the `Invalid` case, so the scan runs over
the whole buffer, and for `Get`/`Post` the slice panics when the buffer is
shorter than the start. -/
def read_resource (buffer : List Nat) (req_type : RequestType) : Option (List Nat) :=
  match req_type with
  | RequestType.Get =>
      if buffer.length < 4 then none else some (resourceLoop [] (buffer.drop 4))
  | RequestType.Post =>
      if buffer.length < 5 then none else some (resourceLoop [] (buffer.drop 5))
  | RequestType.Invalid => some (resourceLoop [] buffer)

/-- Readable description of the `read_resource` scan: the bytes before the
first space when one exists, and the empty sequence otherwise. -/
def pathUpToSpace (l : List Nat) : List Nat :=
  if SPACE ∈ l then l.takeWhile (fun b => b != SPACE) else []

/-- Model of `Server::read_request_body` (server.rs).  `none` is a panic:
either inside `find_in_buffer`, or at the final slice
`buffer[(buffer_sz - body_length as usize)..]` when the wrapped start
exceeds the buffer length (negative parsed length, or a parsed length above
the buffer length but not above 8192). -/
def read_request_body (buffer : List Nat) : Option (List Nat) :=
  match find_in_buffer buffer CONTENT_LENGTH_FIELD with
  | none => none
  | some content_field_idx =>
      if content_field_idx = USIZE_MAX then some []
      else
        if buffer.length < content_field_idx + CONTENT_LENGTH_FIELD.length then none
        else
          let body_length :=
            extract_number (buffer.drop (content_field_idx + CONTENT_LENGTH_FIELD.length))
          if body_length > 8192 then some []
          else
            let start := (buffer.length + 2 ^ 64 - usizeOfI64 body_length) % 2 ^ 64
            if start ≤ buffer.length then some (buffer.drop start) else none

/-- Fuel-driven digit emitter: `fuel` only has to exceed the number being
printed for the result to be the full decimal expansion. -/
def decDigitsAux : Nat → Nat → List Nat
  | 0, _ => []
  | fuel + 1, n =>
      if n < 10 then [48 + n] else decDigitsAux fuel (n / 10) ++ [48 + n % 10]

/-- Decimal digit bytes of a natural number, most significant first: the
bytes `format!` emits for `{sz}` in `format_message`. -/
def decDigits (n : Nat) : List Nat := decDigitsAux (n + 1) n

/-- The bytes of `HTTP/1.1 200 OK\r\n`. -/
def STATUS_LINE_200 : List Nat :=
  [72, 84, 84, 80, 47, 49, 46, 49, 32, 50, 48, 48, 32, 79, 75, 13, 10]

/-- The bytes of `Access-Control-Allow-Origin: *\r\n`. -/
def ACAO_HEADER : List Nat :=
  [65, 99, 99, 101, 115, 115, 45, 67, 111, 110, 116, 114, 111, 108, 45, 65,
   108, 108, 111, 119,  45, 79, 114, 105, 103, 105, 110, 58, 32, 42, 13, 10]

/-- The bytes of `\r\n`. -/
def CRLF : List Nat := [13, 10]

/-- The 65 fixed bytes preceding the length digits in every response
`format_message` builds. -/
def RESPONSE_HEAD : List Nat := STATUS_LINE_200 ++ ACAO_HEADER ++ CONTENT_LENGTH_FIELD

/-- Model of `format_message` (server.rs): the formatted status line and
headers with the decimal body length, a blank line, then the body bytes. -/
def format_message (site_content : List Nat) : List Nat :=
  STATUS_LINE_200 ++ ACAO_HEADER ++ CONTENT_LENGTH_FIELD ++
    decDigits site_content.length ++ CRLF ++ CRLF ++ site_content

/-- Whether a byte is a UTF-8 continuation byte (`0x80..0xBF`). -/
def utf8Cont (b : Nat) : Bool := 128 ≤ b && b ≤ 191

/-- Validity of a byte sequence as UTF-8, the check
`std::str::from_utf8` performs before `fetch_resource` unwraps its result
(RFC 3629 well-formed sequences). -/
def utf8Valid : List Nat → Bool
  | [] => true
  | b :: rest =>
      if b ≤ 127 then utf8Valid rest
      else if 194 ≤ b && b ≤ 223 then
        match rest with
        | c1 :: r => utf8Cont c1 && utf8Valid r
        | [] => false
      else if b = 224 then
        match rest with
        | c1 :: c2 :: r => (160 ≤ c1 && c1 ≤ 191) && utf8Cont c2 && utf8Valid r
        | _ => false
      else if (225 ≤ b && b ≤ 236) || b = 238 || b = 239 then
        match rest with
        | c1 :: c2 :: r => utf8Cont c1 && utf8Cont c2 && utf8Valid r
        | _ => false
      else if b = 237 then
        match rest with
        | c1 :: c2 :: r => (128 ≤ c1 && c1 ≤ 159) && utf8Cont c2 && utf8Valid r
        | _ => false
      else if b = 240 then
        match rest with
        | c1 :: c2 :: c3 :: r =>
            (144 ≤ c1 && c1 ≤ 191) && utf8Cont c2 && utf8Cont c3 && utf8Valid r
        | _ => false
      else if 241 ≤ b && b ≤ 243 then
        match rest with
        | c1 :: c2 :: c3 :: r =>
            utf8Cont c1 && utf8Cont c2 && utf8Cont c3 && utf8Valid r
        | _ => false
      else if b = 244 then
        match rest with
        | c1 :: c2 :: c3 :: r =>
            (128 ≤ c1 && c1 ≤ 143) && utf8Cont c2 && utf8Cont c3 && utf8Valid r
        | _ => false
      else false

/-- The cache mapping of `ThreadSharedState.cached_sites`, modelled as an
association list with the `HashMap` operations used by the server. -/
abbrev Cache := List (List Nat × List Nat)

/-- `HashMap::get` / the `Index` lookup: the value stored at a key. -/
def lookupCache : Cache → List Nat → Option (List Nat)
  | [], _ => none
  | (k', v') :: rest, k => if k' = k then some v' else lookupCache rest k

/-- `HashMap::contains_key`. -/
def containsKey (c : Cache) (k : List Nat) : Bool := (lookupCache c k).isSome

/-- `HashMap::insert`: replace the value at an existing key or add a new
binding. -/
def insertCache : Cache → List Nat → List Nat → Cache
  | [], k, v => [(k, v)]
  | (k', v') :: rest, k, v =>
      if k' = k then (k, v) :: rest else (k', v') :: insertCache rest k v

/-- The filesystem capability `fetch_resource` consumes: a partial map from
full paths to file contents.  `none` models a path that does not exist (or
cannot be opened); a `read_to_bytes` of such a path, or of an empty file,
yields the empty byte vector, exactly as in readers.rs. -/
abbrev FS := List Nat → Option (List Nat)

/-- Model of `check_if_file_exists` (readers.rs) over the filesystem
capability. -/
def check_if_file_exists (fs : FS) (path : List Nat) : Bool := (fs path).isSome

/-- Model of `read_to_bytes` (readers.rs) over the filesystem capability:
the file's bytes, or the empty vector when opening or reading fails or the
file is empty. -/
def read_to_bytes (fs : FS) (path : List Nat) : List Nat := (fs path).getD []

/-- The `ThreadSharedState` structure of server.rs. -/
structure ThreadSharedState where
  cur_connected_hosts : Nat
  cached_sites : Cache
  resource_html_dir : List Nat
  deriving Repr, DecidableEq

/-- The shared state `Server::new` builds: no connected hosts, the cache
holding `Hello World` under the `site_not_found.html` key, and the resource
directory bytes `resource/html/`. -/
def initSharedState : ThreadSharedState where
  cur_connected_hosts := 0
  cached_sites :=
    insertCache [] SITE_NOT_FOUND [72, 101, 108, 108, 111, 32, 87, 111, 114, 108, 100]
  resource_html_dir := [114, 101, 115, 111, 117, 114, 99, 101, 47, 104, 116, 109, 108, 47]

/-- Model of `Server::fetch_resource` (server.rs).  `none` is a panic:
either the `HashMap` index on a key the cache does not hold, or the
`from_utf8(..).unwrap()` on a non-UTF-8 path. -/
def fetch_resource (st : ThreadSharedState) (fs : FS) (resource_path : List Nat) :
    Option (List Nat × ThreadSharedState) :=
  if resource_path = [] then
    (lookupCache st.cached_sites SITE_NOT_FOUND).map (fun v => (v, st))
  else if containsKey st.cached_sites resource_path then
    (lookupCache st.cached_sites resource_path).map (fun v => (v, st))
  else if ¬ utf8Valid (st.resource_html_dir ++ resource_path) then none
  else if ¬ check_if_file_exists fs (st.resource_html_dir ++ resource_path) then
    (lookupCache st.cached_sites SITE_NOT_FOUND).map (fun v => (v, st))
  else if read_to_bytes fs (st.resource_html_dir ++ resource_path) = [] then
    (lookupCache st.cached_sites SITE_NOT_FOUND).map (fun v => (v, st))
  else
    (lookupCache
        (insertCache st.cached_sites resource_path
          (read_to_bytes fs (st.resource_html_dir ++ resource_path)))
        resource_path).map
      (fun v =>
        (v,
          { st with
            cached_sites :=
              insertCache st.cached_sites resource_path
                (read_to_bytes fs (st.resource_html_dir ++ resource_path)) }))

/-- States reached from `st` by a sequence of `fetch_resource` calls, each
against its own filesystem view; a call that panics leaves no new state. -/
def runFetches (st : ThreadSharedState) : List (FS × List Nat) → ThreadSharedState
  | [] => st
  | (fs, key) :: rest =>
      match fetch_resource st fs key with
      | some (_, st') => runFetches st' rest
      | none => runFetches st rest

/-- How a single handled connection ends when it does not panic. -/
inductive HandlerOutcome where
  | closedNoResponse
  | responded (bytes : List Nat)
  deriving Repr, DecidableEq

/-- Model of `Server::conn_handler` (server.rs) for one connection.
`readResult` abstracts `read_tcpstream` (`none` is a socket read error),
`writeOk` abstracts whether `write_all` succeeds.  The result is `none`
when the handler panics: a parse panic inside `read_request_body`,
`read_request_type` or `read_resource`, a cache-index panic inside
`fetch_resource`, or the `unwrap` on a failed write.  Since `Server::run`
awaits the handler inside its accept loop, such a panic takes the whole
process down. -/
def conn_handler (st : ThreadSharedState) (fs : FS)
    (readResult : Option (List Nat)) (writeOk : Bool) :
    Option (HandlerOutcome × ThreadSharedState) :=
  match readResult with
  | none => some (HandlerOutcome.closedNoResponse, st)
  | some vec_buf =>
      match read_request_body vec_buf with
      | none => none
      | some read_body_result =>
          if read_body_result = [] then
            match fetch_resource st fs read_body_result with
            | none => none
            | some (site_content, st') =>
                if writeOk then
                  some (HandlerOutcome.responded (format_message site_content), st')
                else none
          else
            match read_request_type vec_buf with
            | none => none
            | some RequestType.Invalid => some (HandlerOutcome.closedNoResponse, st)
            | some req_type =>
                match read_resource vec_buf req_type with
                | none => none
                | some resource_path =>
                    if resource_path = [] then
                      some (HandlerOutcome.closedNoResponse, st)
                    else
                      match fetch_resource st fs resource_path with
                      | none => none
                      | some (site_content, st') =>
                          if writeOk then
                            some (HandlerOutcome.responded (format_message site_content), st')
                          else none

/-- A filesystem with no files at all. -/
def emptyFS : FS := fun _ => none

/-- Value of a reversed digit-byte list: the byte at position `i` weighs
`10 ^ (j + i)`.  Reference function for the `extract_number` summation. -/
def digitsVal : List Nat → Nat → Int
  | [], _ => 0
  | d :: rest, j => ((d : Int) - 48) * 10 ^ j + digitsVal rest (j + 1)

theorem findLoop_mem_range (buffer pattern : List Nat) (hp : Int) :
    ∀ (fuel start k : Nat), findLoop buffer pattern hp fuel start = k →
      k = USIZE_MAX ∨ (start ≤ k ∧ k < start + fuel) := by
  intro fuel
  induction fuel with
  | zero => intro start k hk; exact Or.inl hk.symm
  | succ f ih =>
      intro start k hk
      by_cases hm : matchAt buffer pattern hp start
      · simp only [findLoop, hm, if_true] at hk
        right; omega
      · simp only [findLoop, hm, if_false] at hk
        rcases ih (start + 1) k hk with h | h
        · exact Or.inl h
        · right; omega

theorem findLoop_first_match (buffer pattern : List Nat) (hp : Int) :
    ∀ (fuel start k : Nat), start ≤ k → k < start + fuel →
      (∀ j, start ≤ j → j < k → ¬ matchAt buffer pattern hp j) →
      matchAt buffer pattern hp k →
      findLoop buffer pattern hp fuel start = k := by
  intro fuel
  induction fuel with
  | zero => intro start k h1 h2 _ _; omega
  | succ f ih =>
      intro start k h1 h2 hno hk
      by_cases hs : start = k
      · subst hs; simp only [findLoop, hk, if_true]
      · have hmiss : ¬ matchAt buffer pattern hp start := hno start le_rfl (by omega)
        simp only [findLoop, hmiss, if_false]
        exact ih (start + 1) k (by omega) (by omega)
          (fun j hj1 hj2 => hno j (by omega) hj2) hk

theorem find_in_buffer_idx_bound (buffer pattern : List Nat) (idx : Nat)
    (h : find_in_buffer buffer pattern = some idx) (hne : idx ≠ USIZE_MAX) :
    idx + pattern.length ≤ buffer.length := by
  unfold find_in_buffer at h
  by_cases hlen : pattern.length ≥ buffer.length + 2
  · simp [hlen] at h
  · simp only [hlen, if_false, Option.some.injEq] at h
    rcases findLoop_mem_range buffer pattern (hashedPattern pattern) _ 0 idx h with h1 | h1
    · exact absurd h1 hne
    · omega

theorem take4_post_ne_get (l : List Nat) (h : l.take 4 = POST_REQUEST) :
    l.take 3 ≠ GET_REQUEST := by
  have h3 : l.take 3 = [80, 79, 83] := by
    have := congrArg (List.take 3) h
    simpa [List.take_take] using this
  rw [h3]; decide

theorem resourceLoop_eq (l : List Nat) :
    ∀ acc, resourceLoop acc l =
      if SPACE ∈ l then acc ++ l.takeWhile (fun b => b != SPACE) else [] := by
  induction l with
  | nil => intro acc; simp [resourceLoop]
  | cons b rest ih =>
      intro acc
      by_cases hb : b = SPACE
      · subst hb; simp [resourceLoop]
      · simp only [resourceLoop, hb, if_false]
        rw [ih (acc ++ [b])]
        by_cases hmem : SPACE ∈ rest
        · have hbne : (b != SPACE) = true := by simp [bne_iff_ne, hb]
          simp [hmem, hbne, List.takeWhile]
        · have : ¬ SPACE ∈ b :: rest := by
            intro hc; rcases List.mem_cons.mp hc with hc | hc
            · exact hb hc.symm
            · exact hmem hc
          simp [hmem, this]

/-- Claim C1 (code bug): the rolling-hash search omits the byte-wise
verification the spec requires, so a hash collision makes it report offset
0 for a pattern whose lowest real occurrence is offset 7: the collision
window satisfies `25 + 22*31 + 5*31^2 + 25*31^3 + 28*31^4 + 3*31^5 + 31^6 =
1_000_000_009 ≡ 0`, the hash of the all-zero pattern. -/
theorem claim_C1_collision :
    find_in_buffer [25, 22, 5, 25, 28, 3, 1, 0, 0, 0, 0, 0, 0, 0]
        [0, 0, 0, 0, 0, 0, 0] = some 0 ∧
    (List.drop 7 [25, 22, 5, 25, 28, 3, 1, 0, 0, 0, 0, 0, 0, 0]).take 7 =
        [0, 0, 0, 0, 0, 0, 0] ∧
    (∀ i, i < 7 →
      (List.drop i [25, 22, 5, 25, 28, 3, 1, 0, 0, 0, 0, 0, 0, 0]).take 7 ≠
        [0, 0, 0, 0, 0, 0, 0]) := by
  refine ⟨by decide, by decide, by decide⟩

/-- Claim C4 (confirmed): `read_request_body` returns the empty vector when
`find_in_buffer` reports the pattern absent, and likewise — never a slice —
whenever the parsed length exceeds 8192. -/
theorem claim_C4_body_extractor (buffer : List Nat) :
    (find_in_buffer buffer CONTENT_LENGTH_FIELD = some USIZE_MAX →
      read_request_body buffer = some []) ∧
    (∀ idx, find_in_buffer buffer CONTENT_LENGTH_FIELD = some idx →
      idx ≠ USIZE_MAX →
      8192 < extract_number (buffer.drop (idx + CONTENT_LENGTH_FIELD.length)) →
      read_request_body buffer = some []) := by
  constructor
  · intro hf
    unfold read_request_body
    rw [hf]
    simp
  · intro idx hf hne hbig
    have hb := find_in_buffer_idx_bound buffer CONTENT_LENGTH_FIELD idx hf hne
    have h1 : ¬ buffer.length < idx + CONTENT_LENGTH_FIELD.length := by omega
    unfold read_request_body
    rw [hf]
    simp [hne, h1, hbig]

/-- Claim C4 witness: a buffer with no `Content-Length: ` field yields the
empty body, and a declared length of 9999 yields the empty body. -/
theorem claim_C4_witness :
    read_request_body (List.replicate 16 65) = some [] ∧
    read_request_body (CONTENT_LENGTH_FIELD ++ [57, 57, 57, 57, 13, 10]) = some [] :=
  ⟨(claim_C4_body_extractor (List.replicate 16 65)).1 (by decide),
   (claim_C4_body_extractor (CONTENT_LENGTH_FIELD ++ [57, 57, 57, 57, 13, 10])).2
     0 (by decide) (by decide) (by decide)⟩

/-- Claim C5 counterexample: on the empty buffer the classifier panics on
the slice `buffer[0..3]` instead of returning `Invalid`. -/
theorem claim_C5_cex :
    read_request_type [] = none ∧
    read_request_type [] ≠ some RequestType.Invalid := by
  refine ⟨by decide, by decide⟩

/-- Claim C5 (amended): on every buffer of length at least 4 the classifier
returns `Get` exactly when the first 3 bytes are `GET`, `Post` exactly when
the first 4 bytes are `POST`, and `Invalid` otherwise, without panicking;
shorter buffers can panic on the unguarded slices. -/
theorem claim_C5_classifier (buffer : List Nat) (h : 4 ≤ buffer.length) :
    (read_request_type buffer = some RequestType.Get ↔
      buffer.take 3 = GET_REQUEST) ∧
    (read_request_type buffer = some RequestType.Post ↔
      buffer.take 4 = POST_REQUEST) ∧
    (read_request_type buffer = some RequestType.Invalid ↔
      (buffer.take 3 ≠ GET_REQUEST ∧ buffer.take 4 ≠ POST_REQUEST)) := by
  have h3 : ¬ buffer.length < 3 := by omega
  have h4 : ¬ buffer.length < 4 := by omega
  by_cases hg : buffer.take 3 = GET_REQUEST
  · have hp : buffer.take 4 ≠ POST_REQUEST := by
      intro hc; exact take4_post_ne_get buffer hc hg
    simp [read_request_type, h3, h4, hg, hp]
  · by_cases hpost : buffer.take 4 = POST_REQUEST
    · simp [read_request_type, h3, h4, hg, hpost]
    · simp [read_request_type, h3, h4, hg, hpost]

/-- Claim C5 witness: the classifier at the concrete 4-byte buffer `GET `. -/
theorem claim_C5_witness :
    (read_request_type [71, 69, 84, 32] = some RequestType.Get ↔
      [71, 69, 84, 32].take 3 = GET_REQUEST) ∧
    (read_request_type [71, 69, 84, 32] = some RequestType.Post ↔
      [71, 69, 84, 32].take 4 = POST_REQUEST) ∧
    (read_request_type [71, 69, 84, 32] = some RequestType.Invalid ↔
      ([71, 69, 84, 32].take 3 ≠ GET_REQUEST ∧
        [71, 69, 84, 32].take 4 ≠ POST_REQUEST)) :=
  claim_C5_classifier [71, 69, 84, 32] (by decide)

/-- Claim C6 counterexample: with the `Invalid` method the skip offset
`usize::MAX` wraps, the scan starts at the beginning of the buffer and
returns the bytes before the first space — not the empty sequence. -/
theorem claim_C6_cex :
    read_resource [65, 32, 66] RequestType.Invalid = some [65] ∧
    read_resource [65, 32, 66] RequestType.Invalid ≠ some [] := by
  refine ⟨by decide, by decide⟩

/-- Claim C6 (amended): for `Get` (buffers of length at least 4) and `Post`
(length at least 5) the extractor skips the method token and the following
space and returns the bytes up to the next space, empty when no space
follows; for `Invalid` the wrapped offset makes it scan the whole buffer the
same way, rather than return the empty sequence. -/
theorem claim_C6_resource (buffer : List Nat) :
    (4 ≤ buffer.length →
      read_resource buffer RequestType.Get = some (pathUpToSpace (buffer.drop 4))) ∧
    (5 ≤ buffer.length →
      read_resource buffer RequestType.Post = some (pathUpToSpace (buffer.drop 5))) ∧
    read_resource buffer RequestType.Invalid = some (pathUpToSpace buffer) := by
  refine ⟨fun h => ?_, fun h => ?_, ?_⟩
  · have : ¬ buffer.length < 4 := by omega
    simp only [read_resource, this, if_false, resourceLoop_eq, pathUpToSpace,
      List.nil_append]
  · have : ¬ buffer.length < 5 := by omega
    simp only [read_resource, this, if_false, resourceLoop_eq, pathUpToSpace,
      List.nil_append]
  · simp only [read_resource, resourceLoop_eq, pathUpToSpace, List.nil_append]

/-- Claim C6 witness: the extractor at the concrete buffer `GET /a B`. -/
theorem claim_C6_witness :
    read_resource [71, 69, 84, 32, 47, 97, 32, 66] RequestType.Get =
      some (pathUpToSpace ([71, 69, 84, 32, 47, 97, 32, 66].drop 4)) :=
  (claim_C6_resource [71, 69, 84, 32, 47, 97, 32, 66]).1 (by decide)

/-- Claim C7 counterexample: a declared `Content-Length` of 99 in a 20-byte
buffer makes the final slice start wrap past the buffer length, an
out-of-bounds panic instead of a returned value. -/
theorem claim_C7_cex :
    read_request_body (CONTENT_LENGTH_FIELD ++ [57, 57, 13, 10]) = none := by
  decide

/-- Claim C7 (amended): `read_request_body` does return a value whenever the
`Content-Length: ` pattern is reported absent, and whenever the parsed
length is either above the 8192 cap or between 0 and the buffer length; it
panics when the parsed length is negative or lies strictly between the
buffer length and 8193, and on buffers short enough to break the search
loop's `usize` bound. -/
theorem claim_C7_no_panic (buffer : List Nat) (hlen : buffer.length < 2 ^ 64) :
    (find_in_buffer buffer CONTENT_LENGTH_FIELD = some USIZE_MAX →
      (read_request_body buffer).isSome = true) ∧
    (∀ idx, find_in_buffer buffer CONTENT_LENGTH_FIELD = some idx →
      idx ≠ USIZE_MAX →
      (8192 < extract_number (buffer.drop (idx + CONTENT_LENGTH_FIELD.length)) ∨
        (0 ≤ extract_number (buffer.drop (idx + CONTENT_LENGTH_FIELD.length)) ∧
          extract_number (buffer.drop (idx + CONTENT_LENGTH_FIELD.length)) ≤
            (buffer.length : Int))) →
      (read_request_body buffer).isSome = true) := by
  constructor
  · intro hf
    unfold read_request_body
    rw [hf]
    simp
  · intro idx hf hne hcase
    have hb := find_in_buffer_idx_bound buffer CONTENT_LENGTH_FIELD idx hf hne
    have h1 : ¬ buffer.length < idx + CONTENT_LENGTH_FIELD.length := by omega
    unfold read_request_body
    rw [hf]
    simp only [hne, if_false, h1]
    rcases hcase with hbig | ⟨hnn, hle⟩
    · simp [hbig]
    · set bl := extract_number (buffer.drop (idx + CONTENT_LENGTH_FIELD.length)) with hbl
      by_cases hcap : bl > 8192
      · simp [hcap]
      · simp only [hcap, if_false]
        have hbllt : bl < 2 ^ 64 := by
          have : (buffer.length : Int) < 2 ^ 64 := by exact_mod_cast hlen
          omega
        have hu : usizeOfI64 bl = bl.toNat := by
          unfold usizeOfI64
          rw [Int.emod_eq_of_lt hnn hbllt]
        have htn : bl.toNat ≤ buffer.length := by omega
        have hstart :
            (buffer.length + 18446744073709551616 - usizeOfI64 bl) %
              18446744073709551616 ≤ buffer.length := by
          rw [hu]; omega
        simp [hstart]

theorem lookup_insertCache_self (c : Cache) (k v : List Nat) :
    lookupCache (insertCache c k v) k = some v := by
  induction c with
  | nil => simp [insertCache, lookupCache]
  | cons p rest ih =>
      by_cases hk : p.1 = k
      · simp [insertCache, hk, lookupCache]
      · simp [insertCache, hk, lookupCache, ih]

theorem containsKey_insertCache (c : Cache) (k0 k v : List Nat)
    (h : containsKey c k0 = true) : containsKey (insertCache c k v) k0 = true := by
  induction c with
  | nil => simp [containsKey, lookupCache] at h
  | cons p rest ih =>
      obtain ⟨k', v'⟩ := p
      by_cases hk : k' = k
      · by_cases hk0 : k = k0
        · simp [insertCache, hk, containsKey, lookupCache, hk0]
        · have hk'0 : ¬ k' = k0 := by rw [hk]; exact hk0
          simp only [containsKey, lookupCache, hk'0, if_false] at h
          simp [insertCache, hk, containsKey, lookupCache, hk0, h]
      · by_cases hk0 : k' = k0
        · subst hk0
          simp [insertCache, hk, lookupCache, containsKey]
        · simp only [containsKey, lookupCache, hk0, if_false] at h
          have hrest := ih h
          simp only [insertCache, hk, if_false, containsKey, lookupCache, hk0]
          exact hrest

theorem fetch_resource_state_cases (st : ThreadSharedState) (fs : FS)
    (key content : List Nat) (st' : ThreadSharedState)
    (h : fetch_resource st fs key = some (content, st')) :
    st' = st ∨
      st' = { st with cached_sites := insertCache st.cached_sites key content } := by
  unfold fetch_resource at h
  split at h
  · rcases Option.map_eq_some'.mp h with ⟨v, _, heq⟩
    obtain ⟨h1, h2⟩ := Prod.mk.injEq .. ▸ heq
    exact Or.inl h2.symm
  · split at h
    · rcases Option.map_eq_some'.mp h with ⟨v, _, heq⟩
      obtain ⟨h1, h2⟩ := Prod.mk.injEq .. ▸ heq
      exact Or.inl h2.symm
    · split at h
      · exact absurd h (by simp)
      · split at h
        · rcases Option.map_eq_some'.mp h with ⟨v, _, heq⟩
          obtain ⟨h1, h2⟩ := Prod.mk.injEq .. ▸ heq
          exact Or.inl h2.symm
        · split at h
          · rcases Option.map_eq_some'.mp h with ⟨v, _, heq⟩
            obtain ⟨h1, h2⟩ := Prod.mk.injEq .. ▸ heq
            exact Or.inl h2.symm
          · rcases Option.map_eq_some'.mp h with ⟨v, hv, heq⟩
            obtain ⟨h1, h2⟩ := Prod.mk.injEq .. ▸ heq
            rw [lookup_insertCache_self] at hv
            injection hv with hv
            right
            rw [← h2, ← h1, hv]

theorem fetch_resource_keeps_sentinel (st : ThreadSharedState) (fs : FS)
    (key content : List Nat) (st' : ThreadSharedState)
    (h : fetch_resource st fs key = some (content, st'))
    (hs : containsKey st.cached_sites SITE_NOT_FOUND = true) :
    containsKey st'.cached_sites SITE_NOT_FOUND = true := by
  rcases fetch_resource_state_cases st fs key content st' h with h1 | h1
  · rw [h1]; exact hs
  · rw [h1]; exact containsKey_insertCache _ _ _ _ hs

theorem runFetches_keeps_sentinel :
    ∀ (ops : List (FS × List Nat)) (st : ThreadSharedState),
      containsKey st.cached_sites SITE_NOT_FOUND = true →
      containsKey (runFetches st ops).cached_sites SITE_NOT_FOUND = true := by
  intro ops
  induction ops with
  | nil => intro st hs; exact hs
  | cons op rest ih =>
      intro st hs
      obtain ⟨fs, key⟩ := op
      cases hfe : fetch_resource st fs key with
      | none => simpa [runFetches, hfe] using ih st hs
      | some p =>
          obtain ⟨content, st'⟩ := p
          have hs' := fetch_resource_keeps_sentinel st fs key content st' hfe hs
          simpa [runFetches, hfe] using ih st' hs'

/-- Claim C8 (confirmed): the `site_not_found.html` key is present in the
cache right after `Server::new` and stays present after every
`fetch_resource` call, for any sequence of fetched keys against any
filesystem views. -/
theorem claim_C8_sentinel_invariant :
    containsKey initSharedState.cached_sites SITE_NOT_FOUND = true ∧
    ∀ ops : List (FS × List Nat),
      containsKey (runFetches initSharedState ops).cached_sites SITE_NOT_FOUND = true :=
  ⟨by decide, fun ops => runFetches_keeps_sentinel ops initSharedState (by decide)⟩

/-- Claim C2 counterexample: the key `[0xFF]` is non-empty, uncached and
resolves to a path that is absent from the (empty) filesystem, so the claim
requires the sentinel content; the code instead panics on
`from_utf8(..).unwrap()` because the built path is not UTF-8. -/
theorem claim_C2_cex :
    fetch_resource initSharedState emptyFS [255] = none ∧
    lookupCache initSharedState.cached_sites SITE_NOT_FOUND =
      some [72, 101, 108, 108, 111, 32, 87, 111, 114, 108, 100] := by
  refine ⟨by decide, by decide⟩

/-- Claim C2 (amended): provided the cache holds the sentinel key and the
built path is valid UTF-8, `fetch_resource` returns the sentinel content on
the empty key; returns the memoized value, untouched state and no
filesystem access on a cached key; returns the sentinel content with the
cache unchanged when the path is absent or reads empty; and otherwise
inserts the key with the file content and returns that content.  A
non-UTF-8 built path panics instead. -/
theorem claim_C2_cache (st : ThreadSharedState) (fs : FS) (key nf : List Nat)
    (hnf : lookupCache st.cached_sites SITE_NOT_FOUND = some nf)
    (hpath : utf8Valid (st.resource_html_dir ++ key) = true) :
    (key = [] → fetch_resource st fs key = some (nf, st)) ∧
    (key ≠ [] → ∀ v, lookupCache st.cached_sites key = some v →
      fetch_resource st fs key = some (v, st)) ∧
    (key ≠ [] → lookupCache st.cached_sites key = none →
      (fs (st.resource_html_dir ++ key) = none ∨
        fs (st.resource_html_dir ++ key) = some []) →
      fetch_resource st fs key = some (nf, st)) ∧
    (key ≠ [] → lookupCache st.cached_sites key = none →
      ∀ c, fs (st.resource_html_dir ++ key) = some c → c ≠ [] →
      fetch_resource st fs key = some
        (c, { st with cached_sites := insertCache st.cached_sites key c })) := by
  refine ⟨?_, ?_, ?_, ?_⟩
  · intro hk
    simp [fetch_resource, hk, hnf]
  · intro hk v hv
    simp [fetch_resource, hk, containsKey, hv]
  · intro hk hv hfs
    have hck : containsKey st.cached_sites key = false := by simp [containsKey, hv]
    rcases hfs with hfs | hfs
    · simp [fetch_resource, hk, hck, hpath, check_if_file_exists, hfs, hnf]
    · simp [fetch_resource, hk, hck, hpath, check_if_file_exists, hfs,
        read_to_bytes, hnf]
  · intro hk hv c hfs hc
    have hck : containsKey st.cached_sites key = false := by simp [containsKey, hv]
    simp [fetch_resource, hk, hck, hpath, check_if_file_exists, hfs,
      read_to_bytes, hc, lookup_insertCache_self]

/-- Claim C2 witness: fetching the uncached key `a` against an empty
filesystem returns the `Hello World` sentinel content with the state
unchanged. -/
theorem claim_C2_witness :
    fetch_resource initSharedState emptyFS [97] =
      some ([72, 101, 108, 108, 111, 32, 87, 111, 114, 108, 100], initSharedState) :=
  (claim_C2_cache initSharedState emptyFS [97]
      [72, 101, 108, 108, 111, 32, 87, 111, 114, 108, 100]
      (by decide) (by decide)).2.2.1 (by decide) (by decide) (Or.inl rfl)

/-- Claim C3 counterexample: a failed `write_all` makes the handler panic on
`unwrap` instead of being contained, and an empty captured buffer makes it
panic inside `read_request_body`; in both cases the panic unwinds through
the sequential accept loop of `Server::run` and takes the process down. -/
theorem claim_C3_cex :
    conn_handler initSharedState emptyFS (some (List.replicate 16 65)) false = none ∧
    conn_handler initSharedState emptyFS (some []) true = none := by
  refine ⟨by decide, by decide⟩

/-- Claim C3 (amended): a socket read failure is genuinely contained — the
handler logs, closes the connection without a response, leaves the shared
state untouched and does not panic — but write failures and parse panics
are not contained. -/
theorem claim_C3_read_error_contained (st : ThreadSharedState) (fs : FS)
    (writeOk : Bool) :
    conn_handler st fs none writeOk = some (HandlerOutcome.closedNoResponse, st) := rfl

theorem i64wrap_eq_self (x : Int) (h1 : -(2 ^ 63) ≤ x) (h2 : x < 2 ^ 63) :
    i64wrap x = x := by
  unfold i64wrap
  have h3 : (0 : Int) ≤ x + 2 ^ 63 := by omega
  have h4 : x + 2 ^ 63 < 2 ^ 64 := by omega
  rw [Int.emod_eq_of_lt h3 h4]
  omega

theorem prefHash_append (l1 l2 : List Nat) :
    ∀ i, i ≤ l1.length → prefHash (l1 ++ l2) i = prefHash l1 i := by
  intro i
  induction i with
  | zero => intro _; rfl
  | succ i ih =>
      intro hi
      have h1 : i ≤ l1.length := by omega
      have h2 : i < l1.length := by omega
      have hg : (l1 ++ l2).getD i 0 = l1.getD i 0 := List.getD_append l1 l2 0 i h2
      simp only [prefHash, ih h1, hg]

theorem matchAt_append (l1 l2 pattern : List Nat) (hp : Int) (j : Nat)
    (h : j + pattern.length ≤ l1.length) :
    matchAt (l1 ++ l2) pattern hp j ↔ matchAt l1 pattern hp j := by
  unfold matchAt windowHash
  rw [prefHash_append l1 l2 (j + pattern.length) h,
    prefHash_append l1 l2 j (by omega)]

theorem findLoop_head_49 :
    findLoop RESPONSE_HEAD CONTENT_LENGTH_FIELD
      (hashedPattern CONTENT_LENGTH_FIELD) 50 0 = 49 := by
  decide

theorem findLoop_append_found (l1 l2 pattern : List Nat) (hp : Int) :
    ∀ (fuel1 fuel2 start k : Nat),
      findLoop l1 pattern hp fuel1 start = k → k ≠ USIZE_MAX →
      k + pattern.length ≤ l1.length → k < start + fuel2 →
      findLoop (l1 ++ l2) pattern hp fuel2 start = k := by
  intro fuel1
  induction fuel1 with
  | zero =>
      intro fuel2 start k hk hne _ _
      simp only [findLoop] at hk
      exact absurd hk.symm hne
  | succ f1 ih =>
      intro fuel2 start k hk hne hlen hk2
      by_cases hm : matchAt l1 pattern hp start
      · have hks : start = k := by simpa [findLoop, hm] using hk
        obtain ⟨f2, rfl⟩ : ∃ f2, fuel2 = f2 + 1 := ⟨fuel2 - 1, by omega⟩
        have hm2 : matchAt (l1 ++ l2) pattern hp start :=
          (matchAt_append l1 l2 pattern hp start (by omega)).mpr hm
        simpa [findLoop, hm2] using hks
      · have hk' : findLoop l1 pattern hp f1 (start + 1) = k := by
          simpa [findLoop, hm] using hk
        have hrange := findLoop_mem_range l1 pattern hp f1 (start + 1) k hk'
        have hsk : start + 1 ≤ k := by
          rcases hrange with h | h
          · exact absurd h hne
          · omega
        have hm2 : ¬ matchAt (l1 ++ l2) pattern hp start := by
          rw [matchAt_append l1 l2 pattern hp start (by omega)]
          exact hm
        obtain ⟨f2, rfl⟩ : ∃ f2, fuel2 = f2 + 1 := ⟨fuel2 - 1, by omega⟩
        simp only [findLoop, hm2, if_false]
        exact ih f2 (start + 1) k hk' hne hlen (by omega)

theorem find_in_head (tail : List Nat) :
    find_in_buffer (RESPONSE_HEAD ++ tail) CONTENT_LENGTH_FIELD = some 49 := by
  have hhead : RESPONSE_HEAD.length = 65 := by decide
  have hcl : CONTENT_LENGTH_FIELD.length = 16 := by decide
  have hlen : (RESPONSE_HEAD ++ tail).length = 65 + tail.length := by
    rw [List.length_append, hhead]
  have hcond : ¬ CONTENT_LENGTH_FIELD.length ≥ (RESPONSE_HEAD ++ tail).length + 2 := by
    rw [hlen, hcl]; omega
  unfold find_in_buffer
  rw [if_neg hcond, Option.some.injEq]
  have hne49 : (49 : Nat) ≠ USIZE_MAX := by decide
  refine findLoop_append_found RESPONSE_HEAD tail CONTENT_LENGTH_FIELD
    (hashedPattern CONTENT_LENGTH_FIELD) 50 _ 0 49 findLoop_head_49 hne49 ?_ ?_
  · rw [hcl, hhead]
  · rw [hlen, hcl]; omega

theorem decDigitsAux_irrel : ∀ (n f : Nat), n < f → decDigitsAux f n = decDigits n := by
  intro n
  induction n using Nat.strong_induction_on with
  | _ n ih =>
      intro f hf
      cases f with
      | zero => omega
      | succ f =>
          by_cases h10 : n < 10
          · simp [decDigitsAux, decDigits, h10]
          · have hd : n / 10 < n := Nat.div_lt_self (by omega) (by omega)
            have h1 : decDigitsAux (f + 1) n =
                decDigitsAux f (n / 10) ++ [48 + n % 10] := by
              simp [decDigitsAux, h10]
            have h2 : decDigits n = decDigitsAux n (n / 10) ++ [48 + n % 10] := by
              simp [decDigits, decDigitsAux, h10]
            rw [h1, h2, ih (n / 10) hd f (by omega), ih (n / 10) hd n (by omega)]

theorem decDigits_lt10 (n : Nat) (h : n < 10) : decDigits n = [48 + n] := by
  simp [decDigits, decDigitsAux, h]

theorem decDigits_ge10 (n : Nat) (h : 10 ≤ n) :
    decDigits n = decDigits (n / 10) ++ [48 + n % 10] := by
  have h10 : ¬ n < 10 := by omega
  have hd : n / 10 < n := Nat.div_lt_self (by omega) (by omega)
  have h2 : decDigits n = decDigitsAux n (n / 10) ++ [48 + n % 10] := by
    simp [decDigits, decDigitsAux, h10]
  rw [h2, decDigitsAux_irrel (n / 10) n hd]

theorem decDigits_bounds : ∀ (n : Nat), ∀ d ∈ decDigits n, 48 ≤ d ∧ d ≤ 57 := by
  intro n
  induction n using Nat.strong_induction_on with
  | _ n ih =>
      intro d hd
      by_cases h10 : n < 10
      · rw [decDigits_lt10 n h10] at hd
        rcases List.mem_singleton.mp hd with rfl
        omega
      · rw [decDigits_ge10 n (by omega)] at hd
        rcases List.mem_append.mp hd with hmem | hmem
        · exact ih (n / 10) (Nat.div_lt_self (by omega) (by omega)) d hmem
        · rcases List.mem_singleton.mp hmem with rfl
          have := Nat.mod_lt n (show 0 < 10 by omega)
          omega

theorem decDigits_len_le : ∀ (n k : Nat), 1 ≤ k → n < 10 ^ k →
    (decDigits n).length ≤ k := by
  intro n
  induction n using Nat.strong_induction_on with
  | _ n ih =>
      intro k hk hn
      by_cases h10 : n < 10
      · rw [decDigits_lt10 n h10]
        simpa using hk
      · have hk2 : 2 ≤ k := by
          by_contra hcon
          have hk1 : k = 1 := by omega
          rw [hk1, pow_one] at hn
          omega
        rw [decDigits_ge10 n (by omega)]
        rw [List.length_append, List.length_singleton]
        have hdiv : n / 10 < 10 ^ (k - 1) := by
          rw [Nat.div_lt_iff_lt_mul (by omega)]
          have : 10 ^ (k - 1) * 10 = 10 ^ k := by
            rw [← pow_succ]
            congr 1
            omega
          omega
        have := ih (n / 10) (Nat.div_lt_self (by omega) (by omega)) (k - 1)
          (by omega) hdiv
        omega

theorem digitsVal_nonneg : ∀ (ds : List Nat) (j : Nat),
    (∀ d ∈ ds, 48 ≤ d) → 0 ≤ digitsVal ds j := by
  intro ds
  induction ds with
  | nil => intro j _; simp [digitsVal]
  | cons d rest ih =>
      intro j hb
      have hd := hb d (List.mem_cons_self d rest)
      have h1 : (0 : Int) ≤ ((d : Int) - 48) * 10 ^ j := by
        apply mul_nonneg
        · have : (48 : Int) ≤ (d : Int) := by exact_mod_cast hd
          omega
        · positivity
      have h2 := ih (j + 1) (fun x hx => hb x (List.mem_cons_of_mem d hx))
      simp only [digitsVal]
      omega

theorem digitsVal_reverse : ∀ (n : Nat) (j : Nat),
    digitsVal (decDigits n).reverse j = (n : Int) * 10 ^ j := by
  intro n
  induction n using Nat.strong_induction_on with
  | _ n ih =>
      intro j
      by_cases h10 : n < 10
      · rw [decDigits_lt10 n h10]
        simp only [List.reverse_singleton, digitsVal]
        push_cast
        ring
      · rw [decDigits_ge10 n (by omega), List.reverse_append,
          List.reverse_singleton]
        have hstep : ([48 + n % 10] ++ (decDigits (n / 10)).reverse) =
            (48 + n % 10) :: (decDigits (n / 10)).reverse := rfl
        rw [hstep]
        simp only [digitsVal]
        rw [ih (n / 10) (Nat.div_lt_self (by omega) (by omega)) (j + 1)]
        have hcast : ((48 + n % 10 : Nat) : Int) = 48 + ((n % 10 : Nat) : Int) := by
          push_cast
          ring
        rw [hcast]
        have key : ((n % 10 : Nat) : Int) + 10 * ((n / 10 : Nat) : Int) = (n : Int) := by
          exact_mod_cast Nat.mod_add_div n 10
        linear_combination ((10 : Int) ^ j) * key

theorem sumLoop_digits :
    ∀ (ds : List Nat) (j : Nat) (acc : Int),
      (∀ d ∈ ds, 48 ≤ d ∧ d ≤ 57) → j + ds.length ≤ 19 → 0 ≤ acc →
      acc + digitsVal ds j < 2 ^ 63 →
      sumLoop ds ((10 : Int) ^ j) acc = acc + digitsVal ds j := by
  intro ds
  induction ds with
  | nil =>
      intro j acc _ _ _ _
      simp [sumLoop, digitsVal]
  | cons d rest ih =>
      intro j acc hb hlen hacc hlt
      obtain ⟨hd1, hd2⟩ := hb d (List.mem_cons_self d rest)
      have hd1i : (48 : Int) ≤ (d : Int) := by exact_mod_cast hd1
      have hd2i : (d : Int) ≤ 57 := by exact_mod_cast hd2
      have hrest_nonneg : 0 ≤ digitsVal rest (j + 1) :=
        digitsVal_nonneg rest (j + 1) (fun x hx => (hb x (List.mem_cons_of_mem d hx)).1)
      have hj18 : j ≤ 18 := by
        simp only [List.length_cons] at hlen
        omega
      have hpow_le : (10 : Int) ^ j ≤ 10 ^ 18 := pow_le_pow_right₀ (by norm_num) hj18
      have hpow_pos : (0 : Int) < 10 ^ j := by positivity
      have hterm_nonneg : 0 ≤ ((d : Int) - 48) * 10 ^ j :=
        mul_nonneg (by omega) (le_of_lt hpow_pos)
      have hterm_le : ((d : Int) - 48) * 10 ^ j ≤ 9 * 10 ^ 18 := by
        calc ((d : Int) - 48) * 10 ^ j ≤ 9 * 10 ^ j :=
              mul_le_mul_of_nonneg_right (by omega) (le_of_lt hpow_pos)
          _ ≤ 9 * 10 ^ 18 := by omega
      have hwrap_term :
          i64wrap (((d : Int) - 48) * 10 ^ j) = ((d : Int) - 48) * 10 ^ j := by
        apply i64wrap_eq_self
        · omega
        · omega
      have hconsval : digitsVal (d :: rest) j =
          ((d : Int) - 48) * 10 ^ j + digitsVal rest (j + 1) := rfl
      have hacc'_nonneg : 0 ≤ acc + ((d : Int) - 48) * 10 ^ j := by omega
      have hacc'_lt : acc + ((d : Int) - 48) * 10 ^ j < 2 ^ 63 := by
        rw [hconsval] at hlt
        omega
      have hwrap_acc :
          i64wrap (acc + ((d : Int) - 48) * 10 ^ j) =
            acc + ((d : Int) - 48) * 10 ^ j := by
        apply i64wrap_eq_self
        · omega
        · omega
      cases rest with
      | nil =>
          simp only [sumLoop, hwrap_term, hwrap_acc, hconsval, digitsVal]
          ring
      | cons e rest2 =>
          have hj17 : j ≤ 17 := by
            simp only [List.length_cons] at hlen
            omega
          have hwrap_mag : i64wrap ((10 : Int) ^ j * 10) = (10 : Int) ^ (j + 1) := by
            rw [← pow_succ]
            have hle : (10 : Int) ^ (j + 1) ≤ 10 ^ 18 :=
              pow_le_pow_right₀ (by norm_num) (by omega)
            have hpos : (0 : Int) < 10 ^ (j + 1) := by positivity
            apply i64wrap_eq_self <;> omega
          have hstep : sumLoop (d :: e :: rest2) ((10 : Int) ^ j) acc =
              sumLoop (e :: rest2) (i64wrap ((10 : Int) ^ j * 10))
                (i64wrap (acc + i64wrap (((d : Int) - 48) * (10 : Int) ^ j))) := rfl
          rw [hstep, hwrap_term, hwrap_acc, hwrap_mag,
            ih (j + 1) (acc + ((d : Int) - 48) * 10 ^ j)
              (fun x hx => hb x (List.mem_cons_of_mem d hx))
              (by simp only [List.length_cons] at hlen ⊢; omega)
              hacc'_nonneg
              (by rw [hconsval] at hlt; omega),
            hconsval]
          ring

theorem takeWhile_all_append (p : Nat → Bool) :
    ∀ (l1 : List Nat) (c : Nat) (l2 : List Nat),
      (∀ b ∈ l1, p b = true) → p c = false →
      List.takeWhile p (l1 ++ c :: l2) = l1 := by
  intro l1
  induction l1 with
  | nil =>
      intro c l2 _ hc
      rw [List.nil_append, List.takeWhile_cons_of_neg (by simp [hc])]
  | cons b rest ih =>
      intro c l2 hall hc
      have hb := hall b (List.mem_cons_self b rest)
      rw [List.cons_append, List.takeWhile_cons_of_pos hb,
        ih c l2 (fun x hx => hall x (List.mem_cons_of_mem b hx)) hc]

theorem extract_decDigits (n : Nat) (rest : List Nat) (h : n < 2 ^ 63) :
    extract_number (decDigits n ++ 13 :: rest) = (n : Int) := by
  have hall : ∀ b ∈ decDigits n, (b != CR && b != NEWLINE) = true := by
    intro b hb
    obtain ⟨h1, h2⟩ := decDigits_bounds n b hb
    have hb1 : b ≠ CR := by unfold CR; omega
    have hb2 : b ≠ NEWLINE := by unfold NEWLINE; omega
    simp [hb1, hb2]
  have hc : ((13 : Nat) != CR && (13 : Nat) != NEWLINE) = false := by decide
  unfold extract_number
  rw [takeWhile_all_append _ (decDigits n) 13 rest hall hc]
  have hbounds : ∀ d ∈ (decDigits n).reverse, 48 ≤ d ∧ d ≤ 57 := by
    intro d hd
    exact decDigits_bounds n d (List.mem_reverse.mp hd)
  have hlen19 : 0 + (decDigits n).reverse.length ≤ 19 := by
    rw [List.length_reverse]
    have h19 : n < 10 ^ 19 := by omega
    have := decDigits_len_le n 19 (by omega) h19
    omega
  have hval : digitsVal (decDigits n).reverse 0 = (n : Int) := by
    have := digitsVal_reverse n 0
    simpa using this
  have hlt : (0 : Int) + digitsVal (decDigits n).reverse 0 < 2 ^ 63 := by
    rw [hval]
    have : (n : Int) < 2 ^ 63 := by exact_mod_cast h
    omega
  have hsum := sumLoop_digits (decDigits n).reverse 0 0 hbounds hlen19 le_rfl hlt
  rw [pow_zero] at hsum
  rw [hsum, hval]
  ring

theorem format_message_head (body : List Nat) :
    format_message body =
      RESPONSE_HEAD ++ (decDigits body.length ++ (13 :: 10 :: 13 :: 10 :: body)) := by
  simp [format_message, RESPONSE_HEAD, CRLF, List.append_assoc]

/-- Claim C9 (confirmed): for every body that a real `Vec<u8>` can hold
(length at most `isize::MAX`), searching the formatted response for
`Content-Length: ` finds offset 49, parsing the following bytes with
`extract_number` recovers exactly the body length, and the emitted bytes are
the status line, the `Access-Control-Allow-Origin` header, the
`Content-Length` header, a blank CRLF line, then the raw body. -/
theorem claim_C9_roundtrip (body : List Nat) (hlen : body.length < 2 ^ 63) :
    find_in_buffer (format_message body) CONTENT_LENGTH_FIELD = some 49 ∧
    extract_number ((format_message body).drop (49 + CONTENT_LENGTH_FIELD.length)) =
      (body.length : Int) ∧
    format_message body = STATUS_LINE_200 ++ ACAO_HEADER ++
      (CONTENT_LENGTH_FIELD ++ decDigits body.length ++ CRLF) ++ CRLF ++ body := by
  refine ⟨?_, ?_, ?_⟩
  · rw [format_message_head]
    exact find_in_head (decDigits body.length ++ (13 :: 10 :: 13 :: 10 :: body))
  · rw [format_message_head]
    have hcl : 49 + CONTENT_LENGTH_FIELD.length = 65 := by decide
    have hhead : RESPONSE_HEAD.length = 65 := by decide
    rw [hcl, ← hhead, List.drop_left]
    exact extract_decDigits body.length (10 :: 13 :: 10 :: body) hlen
  · simp [format_message, List.append_assoc]

/-- Claim C9 witness: the round trip at the concrete two-byte body `hi`. -/
theorem claim_C9_witness :
    find_in_buffer (format_message [104, 105]) CONTENT_LENGTH_FIELD = some 49 ∧
    extract_number ((format_message [104, 105]).drop
        (49 + CONTENT_LENGTH_FIELD.length)) = ([104, 105] : List Nat).length ∧
    format_message [104, 105] = STATUS_LINE_200 ++ ACAO_HEADER ++
      (CONTENT_LENGTH_FIELD ++ decDigits ([104, 105] : List Nat).length ++ CRLF) ++
        CRLF ++ [104, 105] :=
  claim_C9_roundtrip [104, 105] (by decide)

/-- Claim C7 witness: a value is returned on a 16-byte buffer without the
field and on a buffer declaring `Content-Length: 2` with a 2-byte body. -/
theorem claim_C7_witness :
    (read_request_body (List.replicate 16 65)).isSome = true ∧
    (read_request_body (CONTENT_LENGTH_FIELD ++ [50, 13, 10, 97, 98])).isSome = true :=
  ⟨(claim_C7_no_panic (List.replicate 16 65) (by decide)).1 (by decide),
   (claim_C7_no_panic (CONTENT_LENGTH_FIELD ++ [50, 13, 10, 97, 98]) (by decide)).2
     0 (by decide) (by decide) (Or.inr (by decide))⟩

end DianaSrv

